import Mathlib

/-!
# Verification of `ymrp` (Yandex Maps review parser)

Shallow embedding of `src/ymrp/parser.py` and proofs of the specified
properties.  HTML trees are modelled as a simple node inductive (the
HTML-string-to-tree step is the external "markup-query interface" of the
spec, out of the core's scope); the two Playwright loops are modelled as
fuel-indexed iteration over an abstract sequence of page observations.
-/

namespace Ymrp

deriving instance DecidableEq for Except

/-! ## Python string primitives used by the source -/

/-- Whitespace test used to model Python's `str.split()` / `str.strip()`
(ASCII whitespace; the source's inputs contain no exotic Unicode spaces). -/
def isPySpace (c : Char) : Bool :=
  c = ' ' || c = '\t' || c = '\n' || c = '\r' || c = '\x0b' || c = '\x0c'

/-- Python `str.split()` with no separator: split on runs of whitespace,
discarding empty tokens. -/
def pySplit (s : String) : List String :=
  ((s.data.splitOnP isPySpace).map String.mk).filter (fun t => t ≠ "")

/-- Python `str.strip()`: drop whitespace from both ends. -/
def pyStrip (s : String) : String :=
  String.mk (((s.data.dropWhile isPySpace).reverse.dropWhile isPySpace).reverse)

/-- Python `str.zfill(width)` on a character list: left-pad with `'0'` up to
`width`, keeping a leading sign in front of the padding. -/
def zfillList (width : Nat) (l : List Char) : List Char :=
  if width ≤ l.length then l
  else
    match l with
    | c :: rest =>
        if c = '+' || c = '-' then c :: (List.replicate (width - l.length) '0' ++ rest)
        else List.replicate (width - l.length) '0' ++ l
    | [] => List.replicate width '0'

/-- Python `str.zfill(width)`. -/
def zfill (width : Nat) (s : String) : String :=
  String.mk (zfillList width s.data)

/-! ## The locale month vocabulary

The mapping `months` lives in `ymrp/constants.py`, which is not part of the
sources at hand; only `parser.py`'s `months.get(month_name, '01')` call uses
it. -/

/-- Modelled from the spec: `months` from `ymrp/constants.py` — the "fixed
12-entry locale vocabulary (Cyrillic genitive month names → two-digit numeric
month)". -/
def months : List (String × String) :=
  [("января", "01"), ("февраля", "02"), ("марта", "03"), ("апреля", "04"),
   ("мая", "05"), ("июня", "06"), ("июля", "07"), ("августа", "08"),
   ("сентября", "09"), ("октября", "10"), ("ноября", "11"), ("декабря", "12")]

/-- Python `months.get(key, '01')` over the association list. -/
def monthsGet (key : String) : String :=
  match months.lookup key with
  | some v => v
  | none => "01"

/-! ## `YandexMapReviewsHtmlCodeParser._convert_date`

`datetime.now().year` is modelled by the explicit parameter `currentYear`.
Tuple unpacking of a list whose length is not 2 in the `else` branch raises
`ValueError`, modelled by `Except.error`. -/

/-- `_convert_date`: convert a Russian date string to `YYYY-MM-DD`. -/
def convert_date (currentYear : Nat) (date_str : String) : Except String String :=
  let parts := pySplit date_str
  match parts with
  | [day, month_name, year] =>
      .ok (year ++ "-" ++ monthsGet month_name ++ "-" ++ zfill 2 day)
  | [day, month_name] =>
      let year := toString currentYear
      .ok (year ++ "-" ++ monthsGet month_name ++ "-" ++ zfill 2 day)
  | _ => .error "ValueError: unpacking"

/-! ## Markup trees

The HTML-string-to-tree step (`BeautifulSoup(html_content, 'html.parser')`)
is an external collaborator (spec §6 "markup-query interface"); a parsed
snapshot is modelled directly as a forest of nodes. -/

/-- A markup node: an element with a tag name, attributes and children, or a
text node. -/
inductive Node where
  | elem (tag : String) (attrs : List (String × String)) (children : List Node) : Node
  | text (s : String) : Node
deriving Repr

/-- Attributes of a node (text nodes have none). -/
def attrsOf : Node → List (String × String)
  | .elem _ a _ => a
  | .text _ => []

/-- First value bound to `key` in an attribute list (Python dict access). -/
def lookupAttr (key : String) (attrs : List (String × String)) : Option String :=
  List.lookup key attrs

/-- A BeautifulSoup search filter: exact attribute match (`itemprop=...`) or
multi-valued `class_=...` match (the searched class must be one of the
whitespace-separated class tokens). -/
inductive AttrFilter where
  | attrEq (key val : String)
  | classContains (val : String)

/-- Does an attribute list satisfy a filter? -/
def matchesFilter (f : AttrFilter) (attrs : List (String × String)) : Bool :=
  match f with
  | .attrEq k v => lookupAttr k attrs = some v
  | .classContains v =>
      match lookupAttr "class" attrs with
      | some s => (pySplit s).contains v
      | none => false

/-- Does a node match `find`/`find_all` criteria (tag name plus filter)? -/
def nodeMatches (tag : String) (f : AttrFilter) : Node → Bool
  | .elem t attrs _ => t = tag && matchesFilter f attrs
  | .text _ => false

mutual

/-- All matching element nodes in a subtree, document (preorder) order,
including the root — `find_all` relative to a whole document. -/
def findAllNode (tag : String) (f : AttrFilter) : Node → List Node
  | .text _ => []
  | .elem t attrs cs =>
      (if nodeMatches tag f (.elem t attrs cs) then [Node.elem t attrs cs] else [])
        ++ findAllList tag f cs

/-- `findAllNode` over a forest, left to right. -/
def findAllList (tag : String) (f : AttrFilter) : List Node → List Node
  | [] => []
  | n :: ns => findAllNode tag f n ++ findAllList tag f ns

end

/-- BeautifulSoup `Tag.find(tag, filter)`: first matching element among the
strict descendants, document order. -/
def find (tag : String) (f : AttrFilter) : Node → Option Node
  | .text _ => none
  | .elem _ _ cs => (findAllList tag f cs).head?

mutual

/-- `Tag.text`: concatenation of all descendant text, document order. -/
def textOf : Node → String
  | .text s => s
  | .elem _ _ cs => textOfList cs

/-- `textOf` over a list of children. -/
def textOfList : List Node → String
  | [] => ""
  | n :: ns => textOf n ++ textOfList ns

end

/-! ## Field extraction (`YandexMapReviewsHtmlCodeParser`)

Python exceptions are modelled by `Except.error`.  In the source, `if name:`
tests a found `bs4.Tag`, and `bs4.Tag.__bool__` is always `True` (a tag is
truthy even when empty), so the test is equivalent to a `None` check. -/

/-- `int(float(x))` for the plain decimal numerals the rating attribute
carries (`[+|-] digits [. digits]`, optionally surrounded by whitespace):
truncation toward zero of the exact decimal value.  Exponent, `inf` and `nan`
forms of Python's `float` are outside this model.  `none` models the
`ValueError` raised on a non-numeric string. -/
def pyFloatTruncInt (s : String) : Option Int :=
  let l := ((s.data.dropWhile isPySpace).reverse.dropWhile isPySpace).reverse
  let sign : Int := if l.head? = some '-' then -1 else 1
  let body := if l.head? = some '-' || l.head? = some '+' then l.tail else l
  let ip := body.takeWhile Char.isDigit
  let ipVal : Int := Int.ofNat (ip.foldl (fun a c => 10 * a + (c.toNat - 48)) 0)
  let rest := body.dropWhile Char.isDigit
  if rest = [] then
    if ip = [] then none else some (sign * ipVal)
  else if rest.head? = some '.' && rest.tail.all Char.isDigit && (ip ≠ [] || rest.tail ≠ []) then
    some (sign * ipVal)
  else none

/-- Value of a digit list read in base 10 (`'0'` has code point 48). -/
def digitsToNat (l : List Char) : Nat :=
  l.foldl (fun a c => 10 * a + (c.toNat - 48)) 0

/-- `_parse_review_name`: text of the `span[itemprop=name]` descendant,
stripped; failure when absent. -/
def parse_review_name (review : Node) : Except String String :=
  match find "span" (.attrEq "itemprop" "name") review with
  | some nameTag => .ok (pyStrip (textOf nameTag))
  | none => .error "Could not parse reviewer name"

/-- `_parse_review_rating`: `content` attribute of the
`meta[itemprop=ratingValue]` descendant, as `int(float(...))`.  A missing
element (`None[...]` → `TypeError`), missing attribute (`KeyError`) and
non-numeric value (`ValueError`) all raise. -/
def parse_review_rating (review : Node) : Except String Int :=
  match find "meta" (.attrEq "itemprop" "ratingValue") review with
  | none => .error "TypeError: NoneType is not subscriptable"
  | some m =>
      match lookupAttr "content" (attrsOf m) with
      | none => .error "KeyError: content"
      | some rating =>
          match pyFloatTruncInt rating with
          | some v => .ok v
          | none => .error "ValueError: could not convert string to float"

/-- `_parse_review_text`: text of the `span.spoiler-view__text-container`
descendant, stripped; failure when absent. -/
def parse_review_text (review : Node) : Except String String :=
  match find "span" (.classContains "spoiler-view__text-container") review with
  | some t => .ok (pyStrip (textOf t))
  | none => .error "Could not parse review text"

/-- `_parse_review_date`: text of the `span.business-review-view__date`
descendant, stripped and converted; failure when absent (and `_convert_date`
itself may raise). -/
def parse_review_date (currentYear : Nat) (review : Node) : Except String String :=
  match find "span" (.classContains "business-review-view__date") review with
  | some d => convert_date currentYear (pyStrip (textOf d))
  | none => .error "Could not parse review date"

/-- An output record. -/
structure Review where
  name : String
  rating : Int
  text : String
  date : String
deriving Repr, DecidableEq

/-- `parse_yandex_review`: build the record dict; the four field values are
evaluated in source order (name, rating, text, date) and the first exception
propagates. -/
def parse_yandex_review (currentYear : Nat) (review : Node) : Except String Review := do
  let name ← parse_review_name review
  let rating ← parse_review_rating review
  let text ← parse_review_text review
  let date ← parse_review_date currentYear review
  return { name := name, rating := rating, text := text, date := date }

/-- The `for review in review_cards: try ... except Exception: ...` loop of
`parse_yandex_reviews`: append each successfully parsed record, silently skip
failures.  (`isinstance(review, Tag)` is always true for `find_all` results
with a tag name, which return only elements.) -/
def collectReviews (currentYear : Nat) : List Node → List Review
  | [] => []
  | r :: rs =>
      match parse_yandex_review currentYear r with
      | .ok rec => rec :: collectReviews currentYear rs
      | .error _ => collectReviews currentYear rs

/-- `parse_yandex_reviews` on a parsed snapshot: find all
`div.business-reviews-card-view__review` cards and collect the records that
parse. -/
def parse_yandex_reviews (currentYear : Nat) (snapshot : List Node) : List Review :=
  collectReviews currentYear
    (findAllList "div" (.classContains "business-reviews-card-view__review") snapshot)

/-! ## The Playwright loops (`YandexMapReviewsParser`)

The page is abstracted by its observation sequences: `counts i` is the item
count returned by the locator query on the `i`-th iteration of
`_view_all_reviews`, and `polls q` is the size of the `q`-th
`REVIEW_VIEW_EXPAND` query of `_expand_all_reviews` (`q = 0` is the query
before the loop, pass `i` performs query `i + 1`).  Waits are no-ops of the
model and `_click_on_element` absorbs failures into a `Bool` that both loops
ignore, so only a click-attempt counter is kept.  Neither loop terminates on
every page behavior, so both are run on explicit fuel; `none` means the fuel
was exhausted before the loop exited. -/

/-- The value `prev_review_count` holds when iteration `i` of
`_view_all_reviews` performs its comparison: `0` before the first iteration,
afterwards the previous iteration's observed count. -/
def prevObs (counts : Nat → Nat) : Nat → Nat
  | 0 => 0
  | i + 1 => counts i

/-- The `while True` body of `_view_all_reviews`: wait, query the count,
click the last review (attempt counted, outcome ignored), then break if the
count is unchanged, else remember it.  Returns the iteration index on which
the loop broke and the total number of click attempts. -/
def viewLoop (counts : Nat → Nat) : Nat → Nat → Nat → Nat → Option (Nat × Nat)
  | _, _, _, 0 => none
  | prev_review_count, i, clicks, fuel + 1 =>
      let review_count := counts i
      let clicks' := clicks + 1
      if prev_review_count = review_count then some (i, clicks')
      else viewLoop counts review_count (i + 1) clicks' fuel

/-- `_view_all_reviews`: run the loop from `prev_review_count = 0`. -/
def view_all_reviews (counts : Nat → Nat) (fuel : Nat) : Option (Nat × Nat) :=
  viewLoop counts 0 0 0 fuel

/-- The `while` loop of `_expand_all_reviews`, entered with the pre-loop
query result and `iterations = 0`: while `iterations < 10` or the most
recent query was non-empty, re-query, click every control, and increment
`iterations`.  Returns the final value of `iterations` (the number of passes
executed). -/
def expandLoop (polls : Nat → Nat) : Nat → Nat → Nat → Option Nat
  | _, _, 0 => none
  | more_buttons, iterations, fuel + 1 =>
      if iterations < 10 ∨ more_buttons ≠ 0 then
        expandLoop polls (polls (iterations + 1)) (iterations + 1) fuel
      else some iterations

/-- `_expand_all_reviews`: query once, then run the loop. -/
def expand_all_reviews (polls : Nat → Nat) (fuel : Nat) : Option Nat :=
  expandLoop polls (polls 0) 0 fuel

/-! ## Concrete fixtures used to instantiate the theorems -/

/-- A review card with the four sub-elements present or absent as given. -/
def mkReviewCard (nm rt tx dt : Option String) : Node :=
  .elem "div" [("class", "business-reviews-card-view__review")]
    ((match nm with
      | some s => [Node.elem "span" [("itemprop", "name")] [.text s]]
      | none => []) ++
     (match rt with
      | some s => [Node.elem "meta" [("itemprop", "ratingValue"), ("content", s)] []]
      | none => []) ++
     (match tx with
      | some s => [Node.elem "span" [("class", "spoiler-view__text-container")] [.text s]]
      | none => []) ++
     (match dt with
      | some s => [Node.elem "span" [("class", "business-review-view__date")] [.text s]]
      | none => []))

/-- A fully well-formed review card. -/
def sampleCard : Node :=
  mkReviewCard (some "Иван") (some "4.9") (some "Отлично") (some "5 мая 2023")

/-- A card whose name element holds only whitespace. -/
def wsNameCard : Node :=
  mkReviewCard (some "  ") (some "5") (some "хорошо") (some "5 мая 2023")

/-- A card whose date text does not split into 2 or 3 tokens. -/
def badDateCard : Node :=
  mkReviewCard (some "Пётр") (some "4") (some "норм") (some "позавчера в 10:00 утра")

/-- A card missing the name element. -/
def noNameCard : Node :=
  mkReviewCard none (some "3") (some "так себе") (some "1 июня 2022")

end Ymrp

namespace Ymrp

/-! ## Helper lemmas -/

/-- The collection loop is `filterMap` of the per-record extraction. -/
theorem collectReviews_eq_filterMap (cy : Nat) (l : List Node) :
    collectReviews cy l = l.filterMap (fun r => (parse_yandex_review cy r).toOption) := by
  induction l with
  | nil => rfl
  | cons r rs ih =>
      cases h : parse_yandex_review cy r with
      | ok v => simp [collectReviews, h, ih, Except.toOption]
      | error e => simp [collectReviews, h, ih, Except.toOption]

/-- Successes and failures of the per-record extraction partition the cards. -/
theorem collect_length_partition (cy : Nat) (l : List Node) :
    (l.filterMap (fun r => (parse_yandex_review cy r).toOption)).length +
      (l.filter (fun r => !(parse_yandex_review cy r).isOk)).length = l.length := by
  induction l with
  | nil => rfl
  | cons r rs ih =>
      cases h : parse_yandex_review cy r <;>
        simp [List.filterMap_cons, List.filter_cons, h, Except.toOption, Except.isOk,
          Except.toBool] at ih ⊢ <;>
        omega

/-- A list all of whose elements past the dropped `p`-prefix satisfy `p`
satisfies `p` everywhere. -/
theorem all_of_all_dropWhile {p : Char → Bool} (l : List Char)
    (h : ∀ c ∈ l.dropWhile p, p c = true) : ∀ c ∈ l, p c = true := by
  induction l with
  | nil => simp
  | cons a t ih =>
      intro c hc
      by_cases hp : p a = true
      · rcases List.mem_cons.mp hc with rfl | hc'
        · exact hp
        · exact ih (by simpa [List.dropWhile_cons, hp] using h) c hc'
      · exact h c (by simpa [List.dropWhile_cons, hp] using hc)

/-- Stripping yields the empty string exactly when every character is
whitespace. -/
theorem pyStrip_eq_empty_iff (s : String) :
    pyStrip s = "" ↔ ∀ c ∈ s.data, isPySpace c = true := by
  constructor
  · intro h
    have h' : ((s.data.dropWhile isPySpace).reverse.dropWhile isPySpace).reverse = [] := by
      simpa [pyStrip, String.ext_iff] using h
    rw [List.reverse_eq_nil_iff, List.dropWhile_eq_nil_iff] at h'
    refine all_of_all_dropWhile s.data ?_
    intro c' hc'
    exact h' c' (List.mem_reverse.mpr hc')
  · intro h
    have h1 : s.data.dropWhile isPySpace = [] := List.dropWhile_eq_nil_iff.mpr h
    simp [pyStrip, h1]

/-- Stripping yields a non-empty string exactly when some character is not
whitespace. -/
theorem pyStrip_ne_empty_iff (s : String) :
    pyStrip s ≠ "" ↔ ∃ c ∈ s.data, isPySpace c = false := by
  rw [Ne, pyStrip_eq_empty_iff]
  push_neg
  simp

/-- Digits are not whitespace. -/
theorem isPySpace_eq_false_of_isDigit {c : Char} (h : c.isDigit = true) :
    isPySpace c = false := by
  by_contra hs
  rw [Bool.not_eq_false] at hs
  have hc : ((((c = ' ' ∨ c = '\t') ∨ c = '\n') ∨ c = '\r') ∨ c = '\x0b') ∨ c = '\x0c' := by
    simpa [isPySpace] using hs
  rcases hc with ((((rfl | rfl) | rfl) | rfl) | rfl) | rfl <;> exact absurd h (by decide)

/-- `dropWhile` is the identity when the head fails the predicate. -/
theorem dropWhile_eq_self_of_head {p : Char → Bool} (l : List Char)
    (h : ∀ c, l.head? = some c → p c = false) : l.dropWhile p = l := by
  cases l with
  | nil => rfl
  | cons a t => simp [List.dropWhile_cons, h a rfl]

/-- `takeWhile` passes over a prefix all of whose elements satisfy `p`. -/
theorem takeWhile_all_append {p : Char → Bool} (l₁ l₂ : List Char) (h : l₁.all p = true) :
    (l₁ ++ l₂).takeWhile p = l₁ ++ l₂.takeWhile p := by
  induction l₁ with
  | nil => simp
  | cons a t ih =>
      simp only [List.all_cons, Bool.and_eq_true] at h
      simp [List.takeWhile_cons, h.1, ih h.2]

/-- `dropWhile` consumes a prefix all of whose elements satisfy `p`. -/
theorem dropWhile_all_append {p : Char → Bool} (l₁ l₂ : List Char) (h : l₁.all p = true) :
    (l₁ ++ l₂).dropWhile p = l₂.dropWhile p := by
  induction l₁ with
  | nil => simp
  | cons a t ih =>
      simp only [List.all_cons, Bool.and_eq_true] at h
      simp [List.dropWhile_cons, h.1, ih h.2]

/-- Stripping is the identity on a list with non-whitespace ends. -/
theorem pyStripList_eq_self {l : List Char}
    (h1 : ∀ c, l.head? = some c → isPySpace c = false)
    (h2 : ∀ c, l.reverse.head? = some c → isPySpace c = false) :
    ((l.dropWhile isPySpace).reverse.dropWhile isPySpace).reverse = l := by
  rw [dropWhile_eq_self_of_head l h1, dropWhile_eq_self_of_head l.reverse h2,
    List.reverse_reverse]

/-- `int(float(·))` on a decimal numeral `ipart.fpart` is the value of its
integer digits: the fraction is discarded, never rounded. -/
theorem pyFloatTruncInt_decimal (ipart fpart : List Char)
    (hip : ipart ≠ []) (hipd : ipart.all Char.isDigit = true)
    (hfpd : fpart.all Char.isDigit = true) :
    pyFloatTruncInt (String.mk (ipart ++ '.' :: fpart)) =
      some (Int.ofNat (digitsToNat ipart)) := by
  obtain ⟨c₀, it, rfl⟩ := List.exists_cons_of_ne_nil hip
  have hall := List.all_eq_true.mp hipd
  have hc₀ : c₀.isDigit = true := hall c₀ (by simp)
  have hhead : ∀ c, ((c₀ :: it) ++ '.' :: fpart).head? = some c → isPySpace c = false := by
    intro c hc
    simp only [List.cons_append, List.head?_cons, Option.some.injEq] at hc
    subst hc
    exact isPySpace_eq_false_of_isDigit hc₀
  have hrevhead : ∀ c, ((c₀ :: it) ++ '.' :: fpart).reverse.head? = some c →
      isPySpace c = false := by
    rcases fpart.eq_nil_or_concat with rfl | ⟨l₂, a, rfl⟩
    · intro c hc
      simp [List.reverse_append] at hc
      subst hc
      decide
    · intro c hc
      have ha : a.isDigit = true := List.all_eq_true.mp hfpd a (by simp)
      simp [List.reverse_append] at hc
      subst hc
      exact isPySpace_eq_false_of_isDigit ha
  have hstrip := pyStripList_eq_self hhead hrevhead
  show pyFloatTruncInt (String.mk ((c₀ :: it) ++ '.' :: fpart)) = _
  unfold pyFloatTruncInt
  simp only [hstrip]
  have hm : c₀ ≠ '-' := fun e => absurd (e ▸ hc₀) (by decide)
  have hp : c₀ ≠ '+' := fun e => absurd (e ▸ hc₀) (by decide)
  have htake := takeWhile_all_append (p := Char.isDigit) (c₀ :: it) ('.' :: fpart) hipd
  have hdrop := dropWhile_all_append (p := Char.isDigit) (c₀ :: it) ('.' :: fpart) hipd
  have h1 : List.takeWhile Char.isDigit (c₀ :: (it ++ '.' :: fpart)) = c₀ :: it := by
    simpa [List.takeWhile_cons] using htake
  have h2 : List.dropWhile Char.isDigit (c₀ :: (it ++ '.' :: fpart)) = '.' :: fpart := by
    simpa [List.dropWhile_cons] using hdrop
  simp [h1, h2, hm, hp, hfpd, digitsToNat]

/-- `int(float(·))` on a plain digit string is its value. -/
theorem pyFloatTruncInt_intForm (ipart : List Char)
    (hip : ipart ≠ []) (hipd : ipart.all Char.isDigit = true) :
    pyFloatTruncInt (String.mk ipart) = some (Int.ofNat (digitsToNat ipart)) := by
  obtain ⟨c₀, it, rfl⟩ := List.exists_cons_of_ne_nil hip
  have hall := List.all_eq_true.mp hipd
  have hc₀ : c₀.isDigit = true := hall c₀ (by simp)
  have hhead : ∀ c, (c₀ :: it).head? = some c → isPySpace c = false := by
    intro c hc
    simp only [List.head?_cons, Option.some.injEq] at hc
    subst hc
    exact isPySpace_eq_false_of_isDigit hc₀
  have hrevhead : ∀ c, (c₀ :: it).reverse.head? = some c → isPySpace c = false := by
    rcases (c₀ :: it).eq_nil_or_concat with hnil | ⟨l₂, a, heq⟩
    · exact absurd hnil (List.cons_ne_nil c₀ it)
    · intro c hc
      have ha : a.isDigit = true := hall a (by rw [heq]; simp)
      rw [heq] at hc
      simp [List.reverse_append] at hc
      subst hc
      exact isPySpace_eq_false_of_isDigit ha
  have hstrip := pyStripList_eq_self hhead hrevhead
  have hm : c₀ ≠ '-' := fun e => absurd (e ▸ hc₀) (by decide)
  have hp : c₀ ≠ '+' := fun e => absurd (e ▸ hc₀) (by decide)
  have h1 : List.takeWhile Char.isDigit (c₀ :: it) = c₀ :: it := by
    have h' := takeWhile_all_append (p := Char.isDigit) (c₀ :: it) [] hipd
    simpa using h'
  have h2 : List.dropWhile Char.isDigit (c₀ :: it) = [] := by
    have h' := dropWhile_all_append (p := Char.isDigit) (c₀ :: it) [] hipd
    simpa using h'
  unfold pyFloatTruncInt
  simp only [hstrip]
  simp [h1, h2, hm, hp, digitsToNat]

/-- Soundness of the `_view_all_reviews` iteration: a result means the loop
broke at the first iteration whose observation matched the previous one, and
one click attempt was made per iteration. -/
theorem viewLoop_sound (counts : Nat → Nat) :
    ∀ fuel i j c, viewLoop counts (prevObs counts i) i i fuel = some (j, c) →
      i ≤ j ∧ c = j + 1 ∧ counts j = prevObs counts j ∧
        ∀ m, i ≤ m → m < j → counts m ≠ prevObs counts m := by
  intro fuel
  induction fuel with
  | zero => intro i j c h; simp [viewLoop] at h
  | succ fuel ih =>
      intro i j c h
      simp only [viewLoop] at h
      by_cases hstop : prevObs counts i = counts i
      · rw [if_pos hstop] at h
        obtain ⟨rfl, rfl⟩ : i = j ∧ i + 1 = c := by
          have h' := Option.some.inj h
          exact ⟨congrArg Prod.fst h', congrArg Prod.snd h'⟩
        exact ⟨Nat.le_refl _, rfl, hstop.symm, fun m h1 h2 => absurd h1 (Nat.not_le_of_lt h2)⟩
      · rw [if_neg hstop] at h
        have h' : viewLoop counts (prevObs counts (i + 1)) (i + 1) (i + 1) fuel =
            some (j, c) := h
        obtain ⟨h1, h2, h3, h4⟩ := ih (i + 1) j c h'
        refine ⟨by omega, h2, h3, fun m hm1 hm2 => ?_⟩
        rcases Nat.eq_or_lt_of_le hm1 with rfl | hlt
        · exact fun e => hstop e.symm
        · exact h4 m hlt hm2

/-- Termination of the `_view_all_reviews` iteration: if some future
iteration would observe the same count as its predecessor, the loop finishes
within the corresponding fuel. -/
theorem viewLoop_reaches (counts : Nat → Nat) :
    ∀ d i, counts (i + d) = prevObs counts (i + d) →
      viewLoop counts (prevObs counts i) i i (d + 1) ≠ none := by
  intro d
  induction d with
  | zero =>
      intro i h
      rw [Nat.add_zero] at h
      simp [viewLoop, if_pos h.symm]
  | succ d ih =>
      intro i h
      by_cases hstop : prevObs counts i = counts i
      · simp [viewLoop, if_pos hstop]
      · simp only [viewLoop, if_neg hstop]
        have h' : counts ((i + 1) + d) = prevObs counts ((i + 1) + d) := by
          have harr : i + (d + 1) = (i + 1) + d := by omega
          rwa [harr] at h
        exact ih (i + 1) h'

/-- With every poll empty, the `_expand_all_reviews` loop runs passes
`k, k+1, ..., 9` and stops with 10. -/
theorem expandLoop_allZero (polls : Nat → Nat) (hz : ∀ q, polls q = 0) :
    ∀ fuel k, k ≤ 10 → 11 - k ≤ fuel → expandLoop polls 0 k fuel = some 10 := by
  intro fuel
  induction fuel with
  | zero => intro k h1 h2; omega
  | succ fuel ih =>
      intro k h1 h2
      by_cases hk : k = 10
      · subst hk
        simp [expandLoop]
      · have hk' : k < 10 := by omega
        simp only [expandLoop, if_pos (Or.inl hk')]
        rw [hz (k + 1)]
        exact ih (k + 1) (by omega) (by omega)

/-- Soundness of the `_expand_all_reviews` loop: a result `n` means `n ≥ 10`
passes ran, the most recent query was empty, and every earlier check passed
the guard. -/
theorem expandLoop_sound (polls : Nat → Nat) :
    ∀ fuel k n, expandLoop polls (polls k) k fuel = some n →
      k ≤ n ∧ 10 ≤ n ∧ polls n = 0 ∧ ∀ i, k ≤ i → i < n → (i < 10 ∨ polls i ≠ 0) := by
  intro fuel
  induction fuel with
  | zero => intro k n h; simp [expandLoop] at h
  | succ fuel ih =>
      intro k n h
      simp only [expandLoop] at h
      by_cases hg : k < 10 ∨ polls k ≠ 0
      · rw [if_pos hg] at h
        obtain ⟨h1, h2, h3, h4⟩ := ih (k + 1) n h
        refine ⟨by omega, h2, h3, fun i hi1 hi2 => ?_⟩
        rcases Nat.eq_or_lt_of_le hi1 with rfl | hlt
        · exact hg
        · exact h4 i hlt hi2
      · rw [if_neg hg] at h
        obtain rfl : k = n := Option.some.inj h
        push_neg at hg
        exact ⟨Nat.le_refl _, by omega, hg.2, fun i hi1 hi2 => absurd hi1 (by omega)⟩

/-! ## The claims -/

/-- C4: a record is produced only if all four field extractions succeed; if
any field extraction fails, the record extraction fails with the first such
failure (fields evaluated in order name, rating, text, date) and no partial
record exists. -/
theorem c4_record_all_or_nothing (cy : Nat) (review : Node) :
    ((parse_yandex_review cy review).isOk =
      ((parse_review_name review).isOk && (parse_review_rating review).isOk &&
       (parse_review_text review).isOk && (parse_review_date cy review).isOk)) ∧
    (∀ r, parse_yandex_review cy review = .ok r →
      parse_review_name review = .ok r.name ∧
      parse_review_rating review = .ok r.rating ∧
      parse_review_text review = .ok r.text ∧
      parse_review_date cy review = .ok r.date) ∧
    (∀ e, parse_yandex_review cy review = .error e →
      parse_review_name review = .error e ∨
      ((∃ v, parse_review_name review = .ok v) ∧ parse_review_rating review = .error e) ∨
      ((∃ v, parse_review_name review = .ok v) ∧ (∃ v, parse_review_rating review = .ok v) ∧
        parse_review_text review = .error e) ∨
      ((∃ v, parse_review_name review = .ok v) ∧ (∃ v, parse_review_rating review = .ok v) ∧
        (∃ v, parse_review_text review = .ok v) ∧ parse_review_date cy review = .error e)) := by
  cases hn : parse_review_name review <;>
    cases hr : parse_review_rating review <;>
      cases ht : parse_review_text review <;>
        cases hd : parse_review_date cy review <;>
          simp [parse_yandex_review, hn, hr, ht, hd, Bind.bind, Except.bind, Except.isOk,
            Except.toBool, Except.pure, Pure.pure]

/-- C4 witness: the ok-case of the all-or-nothing property at a fully
well-formed card. -/
theorem c4_record_all_or_nothing_witness :
    parse_review_name sampleCard = .ok "Иван" ∧
    parse_review_rating sampleCard = .ok 4 ∧
    parse_review_text sampleCard = .ok "Отлично" ∧
    parse_review_date 2024 sampleCard = .ok "2023-05-05" :=
  (c4_record_all_or_nothing 2024 sampleCard).2.1 ⟨"Иван", 4, "Отлично", "2023-05-05"⟩ (by decide)

/-- C5: batch extraction returns exactly the successfully parsed cards, in
the cards' original relative order, never aborting on failing cards: it is
`filterMap` of the record extractor, and its length is the card count minus
the failure count. -/
theorem c5_batch_best_effort (cy : Nat) (snapshot : List Node) :
    parse_yandex_reviews cy snapshot =
      (findAllList "div" (.classContains "business-reviews-card-view__review") snapshot).filterMap
        (fun r => (parse_yandex_review cy r).toOption) ∧
    (parse_yandex_reviews cy snapshot).length =
      (findAllList "div" (.classContains "business-reviews-card-view__review") snapshot).length -
      ((findAllList "div" (.classContains "business-reviews-card-view__review") snapshot).filter
        (fun r => !(parse_yandex_review cy r).isOk)).length := by
  have h1 := collectReviews_eq_filterMap cy
    (findAllList "div" (.classContains "business-reviews-card-view__review") snapshot)
  have h2 := collect_length_partition cy
    (findAllList "div" (.classContains "business-reviews-card-view__review") snapshot)
  constructor
  · exact h1
  · rw [parse_yandex_reviews, h1]
    omega

/-- C6: a well-formed 3-token date string whose month token carries code
`code` in the locale vocabulary is converted to
`year ++ "-" ++ code ++ "-" ++ zero-padded day`. -/
theorem c6_convert_date_well_formed (currentYear : Nat) (s d m y code : String)
    (hsplit : pySplit s = [d, m, y]) (hm : months.lookup m = some code) :
    convert_date currentYear s = .ok (y ++ "-" ++ code ++ "-" ++ zfill 2 d) := by
  simp only [convert_date, hsplit, monthsGet, hm]

/-- C6 witness: `"5 мая 2023"` converts to `"2023-05-05"`. -/
theorem c6_convert_date_well_formed_witness :
    pySplit "5 мая 2023" = ["5", "мая", "2023"] ∧
    months.lookup "мая" = some "05" ∧
    convert_date 2024 "5 мая 2023" = .ok "2023-05-05" := by
  refine ⟨by decide, by decide, ?_⟩
  rw [c6_convert_date_well_formed 2024 "5 мая 2023" "5" "мая" "2023" "05" (by decide) (by decide)]
  rfl

/-- C8: a 3-token date string whose month token is not in the locale
vocabulary does not fail; the month code falls back to `"01"`. -/
theorem c8_convert_date_unknown_month (currentYear : Nat) (s d m y : String)
    (hsplit : pySplit s = [d, m, y]) (hm : months.lookup m = none) :
    convert_date currentYear s = .ok (y ++ "-" ++ "01" ++ "-" ++ zfill 2 d) := by
  simp only [convert_date, hsplit, monthsGet, hm]

/-- C8 witness: `"5 foo 2023"` converts to `"2023-01-05"`. -/
theorem c8_convert_date_unknown_month_witness :
    pySplit "5 foo 2023" = ["5", "foo", "2023"] ∧
    months.lookup "foo" = none ∧
    convert_date 2024 "5 foo 2023" = .ok "2023-01-05" := by
  refine ⟨by decide, by decide, ?_⟩
  rw [c8_convert_date_unknown_month 2024 "5 foo 2023" "5" "foo" "2023" (by decide) (by decide)]
  rfl

/-- C9 counterexample: a card whose name element contains only whitespace is
emitted by the pipeline with an empty name field. -/
theorem c9_counterexample_empty_name :
    parse_yandex_reviews 2024 [wsNameCard] =
      [{ name := "", rating := 5, text := "хорошо", date := "2023-05-05" }] ∧
    ∃ r ∈ parse_yandex_reviews 2024 [wsNameCard], r.name = "" := by
  refine ⟨by decide, ⟨⟨"", 5, "хорошо", "2023-05-05"⟩, by decide, rfl⟩⟩

/-- C9 amended: every emitted record's name and text are the stripped text
of the corresponding sub-elements, and each is non-empty iff that text has a
non-whitespace character; whitespace-only content yields an empty field. -/
theorem c9_amended_fields_stripped (cy : Nat) (review : Node) (r : Review)
    (h : parse_yandex_review cy review = .ok r) :
    (∃ t, find "span" (.attrEq "itemprop" "name") review = some t ∧
       r.name = pyStrip (textOf t) ∧
       (r.name ≠ "" ↔ ∃ c ∈ (textOf t).data, isPySpace c = false)) ∧
    (∃ t, find "span" (.classContains "spoiler-view__text-container") review = some t ∧
       r.text = pyStrip (textOf t) ∧
       (r.text ≠ "" ↔ ∃ c ∈ (textOf t).data, isPySpace c = false)) := by
  cases hn : parse_review_name review with
  | error e => simp [parse_yandex_review, hn, Bind.bind, Except.bind] at h
  | ok nm =>
  cases hr : parse_review_rating review with
  | error e => simp [parse_yandex_review, hn, hr, Bind.bind, Except.bind] at h
  | ok rt =>
  cases ht : parse_review_text review with
  | error e => simp [parse_yandex_review, hn, hr, ht, Bind.bind, Except.bind] at h
  | ok tx =>
  cases hd : parse_review_date cy review with
  | error e => simp [parse_yandex_review, hn, hr, ht, hd, Bind.bind, Except.bind] at h
  | ok dt =>
  have hrec : r = ⟨nm, rt, tx, dt⟩ := by
    simp [parse_yandex_review, hn, hr, ht, hd, Bind.bind, Except.bind, Pure.pure,
      Except.pure] at h
    cases h
    rfl
  subst hrec
  constructor
  · cases hf : find "span" (.attrEq "itemprop" "name") review with
    | none => simp [parse_review_name, hf] at hn
    | some t =>
        have hnm : nm = pyStrip (textOf t) := by
          simp [parse_review_name, hf] at hn
          exact hn.symm
        refine ⟨t, rfl, hnm, ?_⟩
        rw [show (⟨nm, rt, tx, dt⟩ : Review).name = nm from rfl, hnm]
        exact pyStrip_ne_empty_iff (textOf t)
  · cases hf : find "span" (.classContains "spoiler-view__text-container") review with
    | none => simp [parse_review_text, hf] at ht
    | some t =>
        have htx : tx = pyStrip (textOf t) := by
          simp [parse_review_text, hf] at ht
          exact ht.symm
        refine ⟨t, rfl, htx, ?_⟩
        rw [show (⟨nm, rt, tx, dt⟩ : Review).text = tx from rfl, htx]
        exact pyStrip_ne_empty_iff (textOf t)

/-- C9 amended witness: the property instantiated at a well-formed card. -/
theorem c9_amended_fields_stripped_witness :
    (∃ t, find "span" (.attrEq "itemprop" "name") sampleCard = some t ∧
       (⟨"Иван", 4, "Отлично", "2023-05-05"⟩ : Review).name = pyStrip (textOf t) ∧
       ((⟨"Иван", 4, "Отлично", "2023-05-05"⟩ : Review).name ≠ "" ↔
         ∃ c ∈ (textOf t).data, isPySpace c = false)) ∧
    (∃ t, find "span" (.classContains "spoiler-view__text-container") sampleCard = some t ∧
       (⟨"Иван", 4, "Отлично", "2023-05-05"⟩ : Review).text = pyStrip (textOf t) ∧
       ((⟨"Иван", 4, "Отлично", "2023-05-05"⟩ : Review).text ≠ "" ↔
         ∃ c ∈ (textOf t).data, isPySpace c = false)) :=
  c9_amended_fields_stripped 2024 sampleCard ⟨"Иван", 4, "Отлично", "2023-05-05"⟩ (by decide)

/-- C10: a date string with a token count other than 2 or 3 makes
`_convert_date` raise; within the batch that failure makes the containing
card's extraction fail, and the batch still collects every successful card
(it is `filterMap` of the record extractor). -/
theorem c10_bad_date_shape_dropped (cy : Nat) (s : String)
    (h2 : (pySplit s).length ≠ 2) (h3 : (pySplit s).length ≠ 3) :
    convert_date cy s = .error "ValueError: unpacking" ∧
    (∀ review d : Node,
        find "span" (.classContains "business-review-view__date") review = some d →
        pyStrip (textOf d) = s →
        (parse_yandex_review cy review).isOk = false) ∧
    (∀ snapshot : List Node,
        parse_yandex_reviews cy snapshot =
          (findAllList "div" (.classContains "business-reviews-card-view__review")
              snapshot).filterMap (fun r => (parse_yandex_review cy r).toOption)) := by
  have hcd : convert_date cy s = .error "ValueError: unpacking" := by
    unfold convert_date
    rcases hl : pySplit s with _ | ⟨a, _ | ⟨b, _ | ⟨c, _ | ⟨d, t⟩⟩⟩⟩
    · rfl
    · rfl
    · rw [hl] at h2; simp at h2
    · rw [hl] at h3; simp at h3
    · rfl
  refine ⟨hcd, ?_, ?_⟩
  · intro review d hf hstrip
    have hdate : parse_review_date cy review = .error "ValueError: unpacking" := by
      rw [parse_review_date, hf]
      show convert_date cy (pyStrip (textOf d)) = _
      rw [hstrip, hcd]
    cases hn : parse_review_name review <;>
      cases hr : parse_review_rating review <;>
        cases ht : parse_review_text review <;>
          simp [parse_yandex_review, hn, hr, ht, hdate, Bind.bind, Except.bind, Except.isOk,
            Except.toBool]
  · intro snapshot
    exact collectReviews_eq_filterMap cy _

/-- C10 witness: a 4-token date string fails conversion, the card carrying
it is dropped, and the rest of the batch is still extracted. -/
theorem c10_bad_date_shape_dropped_witness :
    (pySplit "позавчера в 10:00 утра").length = 4 ∧
    convert_date 2024 "позавчера в 10:00 утра" = .error "ValueError: unpacking" ∧
    (parse_yandex_review 2024 badDateCard).isOk = false ∧
    parse_yandex_reviews 2024 [badDateCard, sampleCard] =
      [{ name := "Иван", rating := 4, text := "Отлично", date := "2023-05-05" }] := by
  refine ⟨by decide, ?_, ?_, by decide⟩
  · exact (c10_bad_date_shape_dropped 2024 "позавчера в 10:00 утра"
      (by decide) (by decide)).1
  · exact (c10_bad_date_shape_dropped 2024 "позавчера в 10:00 утра"
        (by decide) (by decide)).2.1 badDateCard
      (Node.elem "span" [("class", "business-review-view__date")]
        [.text "позавчера в 10:00 утра"])
      (by rfl) (by decide)

/-- C7: when the rating meta element's `content` attribute holds a decimal
numeral (digits, optionally followed by a dot and digit fraction), the
extracted rating is the value of the integer digits — truncation toward
zero, the fraction never rounds the result. -/
theorem c7_rating_truncates (review mt : Node) (x : String) (ipart fpart : List Char)
    (hfind : find "meta" (.attrEq "itemprop" "ratingValue") review = some mt)
    (hattr : lookupAttr "content" (attrsOf mt) = some x)
    (hshape : x.data = ipart ++ '.' :: fpart ∨ (x.data = ipart ∧ fpart = []))
    (hip : ipart ≠ []) (hipd : ipart.all Char.isDigit = true)
    (hfpd : fpart.all Char.isDigit = true) :
    parse_review_rating review = .ok (Int.ofNat (digitsToNat ipart)) := by
  have hx : pyFloatTruncInt x = some (Int.ofNat (digitsToNat ipart)) := by
    rcases hshape with h | ⟨h, rfl⟩
    · calc pyFloatTruncInt x = pyFloatTruncInt (String.mk x.data) := rfl
        _ = pyFloatTruncInt (String.mk (ipart ++ '.' :: fpart)) := by rw [h]
        _ = some (Int.ofNat (digitsToNat ipart)) :=
            pyFloatTruncInt_decimal ipart fpart hip hipd hfpd
    · calc pyFloatTruncInt x = pyFloatTruncInt (String.mk x.data) := rfl
        _ = pyFloatTruncInt (String.mk ipart) := by rw [h]
        _ = some (Int.ofNat (digitsToNat ipart)) := pyFloatTruncInt_intForm ipart hip hipd
  rw [parse_review_rating, hfind]
  show (match lookupAttr "content" (attrsOf mt) with
    | none => Except.error "KeyError: content"
    | some rating =>
        match pyFloatTruncInt rating with
        | some v => Except.ok v
        | none => Except.error "ValueError: could not convert string to float") = _
  rw [hattr]
  show (match pyFloatTruncInt x with
    | some v => Except.ok v
    | none => Except.error "ValueError: could not convert string to float") = _
  rw [hx]

/-- C7 witness: `"4.0"` and `"4.9"` both extract as the integer 4. -/
theorem c7_rating_truncates_witness :
    parse_review_rating (mkReviewCard none (some "4.0") none none) = .ok 4 ∧
    parse_review_rating (mkReviewCard none (some "4.9") none none) = .ok 4 := by
  constructor
  · exact c7_rating_truncates (mkReviewCard none (some "4.0") none none)
      (Node.elem "meta" [("itemprop", "ratingValue"), ("content", "4.0")] []) "4.0"
      ['4'] ['0'] (by rfl) (by decide) (Or.inl (by decide)) (by decide) (by decide) (by decide)
  · exact c7_rating_truncates (mkReviewCard none (some "4.9") none none)
      (Node.elem "meta" [("itemprop", "ratingValue"), ("content", "4.9")] []) "4.9"
      ['4'] ['9'] (by rfl) (by decide) (Or.inl (by decide)) (by decide) (by decide) (by decide)

/-- C1: against a source whose count observations are monotone non-decreasing
and eventually constant, `_view_all_reviews` terminates (fuel `N + 2`
suffices past the point of constancy `N`); whenever it terminates it does so
exactly at the first iteration whose observed count equals the previously
observed count (`prev_review_count` starting at 0), with one click attempt
per iteration. -/
theorem c1_view_all_reviews_converges (counts : Nat → Nat) (N : Nat)
    (hmono : Monotone counts) (hconst : ∀ i, N ≤ i → counts i = counts N) :
    view_all_reviews counts (N + 2) ≠ none ∧
    ∀ fuel j c, view_all_reviews counts fuel = some (j, c) →
      c = j + 1 ∧ counts j = prevObs counts j ∧
        ∀ m, m < j → counts m ≠ prevObs counts m := by
  constructor
  · have hstop : counts (0 + (N + 1)) = prevObs counts (0 + (N + 1)) := by
      have h1 : counts (N + 1) = counts N := hconst (N + 1) (by omega)
      simpa [prevObs] using h1
    have h := viewLoop_reaches counts (N + 1) 0 hstop
    exact h
  · intro fuel j c h
    obtain ⟨_, h2, h3, h4⟩ := viewLoop_sound counts fuel 0 j c h
    exact ⟨h2, h3, fun m hm => h4 m (Nat.zero_le m) hm⟩

/-- C1 witness: the constant-zero source is monotone and constant, and the
loop's characterization holds for it. -/
theorem c1_view_all_reviews_converges_witness :
    Monotone (fun _ : Nat => (0 : Nat)) ∧
    (view_all_reviews (fun _ => 0) 2 ≠ none ∧
     ∀ fuel j c, view_all_reviews (fun _ => 0) fuel = some (j, c) →
       c = j + 1 ∧ (fun _ : Nat => (0 : Nat)) j = prevObs (fun _ => 0) j ∧
         ∀ m, m < j → (fun _ : Nat => (0 : Nat)) m ≠ prevObs (fun _ => 0) m) :=
  ⟨monotone_const,
    c1_view_all_reviews_converges (fun _ => 0) 0 monotone_const (fun _ _ => rfl)⟩

/-- C2: with every expander query empty from the first onward,
`_expand_all_reviews` executes exactly 10 passes; in general it returns `n`
only with `n ≥ 10` and an empty most-recent query, every earlier check
having passed the guard `iterations < 10` or a non-empty last query. -/
theorem c2_expand_all_reviews_min_iterations (polls : Nat → Nat) :
    ((∀ q, polls q = 0) → ∀ fuel, 11 ≤ fuel → expand_all_reviews polls fuel = some 10) ∧
    (∀ fuel n, expand_all_reviews polls fuel = some n →
      10 ≤ n ∧ polls n = 0 ∧ ∀ i, i < n → (i < 10 ∨ polls i ≠ 0)) := by
  constructor
  · intro hz fuel hf
    rw [expand_all_reviews, hz 0]
    exact expandLoop_allZero polls hz fuel 0 (by omega) (by omega)
  · intro fuel n h
    obtain ⟨_, h2, h3, h4⟩ := expandLoop_sound polls fuel 0 n h
    exact ⟨h2, h3, fun i hi => h4 i (Nat.zero_le i) hi⟩

/-- C2 witness: with all queries empty the loop stops with exactly 10
passes. -/
theorem c2_expand_all_reviews_min_iterations_witness :
    expand_all_reviews (fun _ => 0) 11 = some 10 :=
  (c2_expand_all_reviews_min_iterations (fun _ => 0)).1 (fun _ => rfl) 11 (by omega)

/-- C3 counterexample: on the observation sequence `[3,3]` the loop stops at
iteration index 1 after two comparisons and two click attempts — not at the
first comparison with a single interaction. -/
theorem c3_counterexample_two_interactions :
    view_all_reviews (fun _ => 3) 2 = some (1, 2) ∧
    view_all_reviews (fun _ => 3) 2 ≠ some (0, 1) := by
  constructor
  · decide
  · decide

/-- C3 amended: on the observation sequence `[3,3]` the loop terminates at
iteration index 1 — its second comparison, which is the first comparison of
two successive poll observations — having performed two click attempts in
total, i.e. one interaction beyond the first. -/
theorem c3_amended_second_comparison (fuel : Nat) :
    view_all_reviews (fun _ => 3) (fuel + 2) = some (1, 2) := by
  simp [view_all_reviews, viewLoop]

end Ymrp
